import Mathlib

/-!
Verification of the skills-cli core: a shallow embedding of the git checkout
manager (`src/git.ts`) and the lock reconciliation engine (`src/reconcile.ts`).

Strings from the TypeScript source are embedded as `List Char` in the git
module (where regular-expression stripping operates on characters) and as
`String` in the reconciliation module (where names are only compared for
equality).  External effects (git transport, the filesystem, skill discovery,
the per-agent installer) are modelled as explicit inputs: the outcomes of the
git calls are fields of a `GitEnv` record, and the discovery result is the
`discoveredSkills` argument of `reconcileRepoSkills`, exactly the data the
source code consumes.
-/

/-! ## URL normalization (`normalizeGitUrl`, src/git.ts lines 109-131)

The source applies five sequential rewrites to the url string:
ssh form `git@host:path` to `host/path`, then stripping a scheme, a
leading userinfo segment, a trailing `.git`, and trailing slashes.
Each JavaScript regex replacement is embedded as a list transformation.
-/

/-- Characters that the JavaScript regex dot does not match; the `(.+)$` group
of the ssh-form regex fails when the path part contains one of these. -/
def isLineTerm (c : Char) : Bool :=
  c == '\n' || c == '\r' || c == '\u2028' || c == '\u2029'

/-- Embedding of `normalized.match(/^git@([^:]+):(.+)$/)` followed by the
rewrite to `host/rest`: the host is everything before the first colon after
the leading `git@` and must be nonempty; the rest must be nonempty and free
of line terminators. A failed match leaves the string unchanged. -/
def sshStrip (cs : List Char) : List Char :=
  match cs with
  | 'g' :: 'i' :: 't' :: '@' :: rest =>
    let a := rest.takeWhile (fun c => decide (c ≠ ':'))
    match rest.dropWhile (fun c => decide (c ≠ ':')) with
    | ':' :: b =>
      if a = [] ∨ b = [] ∨ (∃ c ∈ b, isLineTerm c = true) then cs else a ++ '/' :: b
    | _ => cs
  | _ => cs

/-- Embedding of `normalized.replace(/^(?:https?|ssh|git):\/\//, '')`. -/
def schemeStrip (cs : List Char) : List Char :=
  if ("https://".data).isPrefixOf cs then cs.drop 8
  else if ("http://".data).isPrefixOf cs then cs.drop 7
  else if ("ssh://".data).isPrefixOf cs then cs.drop 6
  else if ("git://".data).isPrefixOf cs then cs.drop 6
  else cs

/-- Embedding of `normalized.replace(/^[^@]+@/, '')`: drop a nonempty run of
non-`@` characters together with the first `@`; no match leaves the string
unchanged. -/
def userStrip (cs : List Char) : List Char :=
  let a := cs.takeWhile (fun c => decide (c ≠ '@'))
  match cs.dropWhile (fun c => decide (c ≠ '@')) with
  | '@' :: b => if a = [] then cs else b
  | _ => cs

/-- Embedding of `normalized.replace(/\.git$/, '')`. -/
def dotGitStrip (cs : List Char) : List Char :=
  if (".git".data).isSuffixOf cs then ((cs.reverse.drop 4).reverse) else cs

/-- Embedding of `normalized.replace(/\/+$/, '')`. -/
def slashStrip (cs : List Char) : List Char :=
  (cs.reverse.dropWhile (fun c => decide (c = '/'))).reverse

/-- Embedding of `normalizeGitUrl` (src/git.ts): the five rewrites applied in
source order. -/
def normalizeGitUrl (url : List Char) : List Char :=
  slashStrip (dotGitStrip (userStrip (schemeStrip (sshStrip url))))

/-! ## Git checkout manager (src/git.ts)

The outcomes of the external `simple-git` calls are supplied through a
`GitEnv` record: each field is the result the corresponding blocking call
would produce.  The boolean paired with each result tracks whether the
checkout directory exists after the call, which is the state the cleanup
claims are about. -/

/-- Embedding of the `GitCloneError` class. -/
structure GitCloneError where
  message : List Char
  url : List Char
  isTimeout : Bool
  isAuthError : Bool
  deriving DecidableEq, Repr

/-- Outcomes of the external git operations that one `ensureRepoCheckout`
call can perform, plus whether a `.git` directory already exists at the
computed checkout path. -/
structure GitEnv where
  gitDirExists : Bool
  fetchResult : Except (List Char) Unit
  checkoutResult : Except (List Char) Unit
  pullResult : Except (List Char) Unit
  cloneResult : Except (List Char) Unit

/-- Embedding of the timeout test `errorMessage.includes('block timeout') ||
errorMessage.includes('timed out')`. -/
def isTimeoutMsg (msg : List Char) : Bool :=
  decide ("block timeout".data <:+: msg) || decide ("timed out".data <:+: msg)

/-- Embedding of the authentication test: the four substrings checked by the
source. -/
def isAuthErrorMsg (msg : List Char) : Bool :=
  decide ("Authentication failed".data <:+: msg) ||
  decide ("could not read Username".data <:+: msg) ||
  decide ("Permission denied".data <:+: msg) ||
  decide ("Repository not found".data <:+: msg)

/-- Embedding of the error classification performed in the clone catch
blocks of both `cloneRepo` and `ensureRepoCheckout` (guidance text
abbreviated to its first line; the claims do not depend on it). -/
def classifyCloneError (url msg : List Char) : GitCloneError :=
  if isTimeoutMsg msg then
    { message := ("Clone timed out after 60s. This often happens with private repos that require authentication.".data),
      url := url, isTimeout := true, isAuthError := false }
  else if isAuthErrorMsg msg then
    { message := ("Authentication failed for ".data ++ url ++ ".".data),
      url := url, isTimeout := false, isAuthError := true }
  else
    { message := ("Failed to clone ".data ++ url ++ ": ".data ++ msg),
      url := url, isTimeout := false, isAuthError := false }

/-- Embedding of `getRepoCheckoutPath`: `join(reposDir, normalized)` or
`join(reposDir, normalized@ref)`; the repos root directory is a parameter
(the source reads it from an environment variable or a home-relative
default). -/
def getRepoCheckoutPath (reposDir url : List Char) (ref : Option (List Char)) : List Char :=
  reposDir ++ '/' :: (match ref with
    | some r => normalizeGitUrl url ++ '@' :: r
    | none => normalizeGitUrl url)

/-- The error, if any, escaping the fetch/checkout/pull update sequence of
`ensureRepoCheckout`'s existing-checkout branch.  A fetch error escapes;
with a ref, a checkout error escapes while the subsequent `pull` sits in its
own try/catch and is swallowed; without a ref, a pull error escapes. -/
def updateError (env : GitEnv) (ref : Option (List Char)) : Option (List Char) :=
  match env.fetchResult with
  | .error m => some m
  | .ok _ =>
    match ref with
    | some _ =>
      match env.checkoutResult with
      | .error m => some m
      | .ok _ => none
    | none =>
      match env.pullResult with
      | .error m => some m
      | .ok _ => none

/-- Embedding of `ensureRepoCheckout`.  The first component is the returned
path or the thrown `GitCloneError`; the second records whether the checkout
directory exists afterwards.  In the existing-checkout branch the catch
rethrows only when the message matches the authentication patterns; in the
clone branch any failure removes the freshly created directory and rethrows
the classified error. -/
def ensureRepoCheckout (env : GitEnv) (reposDir url : List Char) (ref : Option (List Char)) :
    Except GitCloneError (List Char) × Bool :=
  let checkoutPath := getRepoCheckoutPath reposDir url ref
  if env.gitDirExists then
    match updateError env ref with
    | none => (.ok checkoutPath, true)
    | some m =>
      if isAuthErrorMsg m then
        (.error { message := ("Authentication failed for ".data ++ url ++ ".".data),
                  url := url, isTimeout := false, isAuthError := true }, true)
      else
        (.ok checkoutPath, true)
  else
    match env.cloneResult with
    | .ok _ => (.ok checkoutPath, true)
    | .error m => (.error (classifyCloneError url m), false)

/-- Embedding of `cloneRepo` (src/git.ts lines 41-87): clone into a fresh
temp directory; on failure remove the directory and throw the classified
error.  The boolean records whether the temp directory survives. -/
def cloneRepo (cloneResult : Except (List Char) Unit) (tempDir url : List Char) :
    Except GitCloneError (List Char) × Bool :=
  match cloneResult with
  | .ok _ => (.ok tempDir, true)
  | .error m => (.error (classifyCloneError url m), false)

/-- Embedding of JavaScript `String.prototype.trim` on the revparse output. -/
def trimChars (s : List Char) : List Char :=
  ((s.dropWhile (fun c => c.isWhitespace)).reverse.dropWhile (fun c => c.isWhitespace)).reverse

/-- Embedding of `getRepoHeadHash`: the whole body sits in a try/catch, so
the function is total; the revparse outcome (ok with its stdout, or any
thrown error) is the explicit input. -/
def getRepoHeadHash (revparseResult : Except (List Char) (List Char)) : Option (List Char) :=
  match revparseResult with
  | .ok s => some (trimChars s)
  | .error _ => none

/-! ## Lock data model and reconciliation engine (src/reconcile.ts)

The lock's two record maps (`skills`, `repos`) are embedded as functions
from names to optional entries; the `repos` field itself is optional,
mirroring `repos?` in `ReconcileLock`.  `reconcileRepoSkills` mutates the
lock in place in the source; here it returns the updated lock next to the
`ReconcileResult`.  The discovery result (`discoverSkills`, an external
collaborator) is the `discoveredSkills` argument; the per-agent installer
calls and symlink removals touch only the filesystem, never the lock or the
returned lists, and have no lock-level residue to model. -/

/-- The `installMethod` union `'repo-symlink' | 'copy'`. -/
inductive InstallMethod where
  | repoSymlink
  | copy
  deriving DecidableEq, Repr

/-- Embedding of the `ReconcileLockEntry` interface. -/
structure ReconcileLockEntry where
  source : String
  sourceType : String
  sourceUrl : String
  skillPath : Option String
  skillFolderHash : String
  installedAt : String
  updatedAt : String
  ref : Option String
  installMethod : Option InstallMethod
  repoPath : Option String
  deriving DecidableEq, Repr

/-- Embedding of the `ReconcileRepoEntry` interface. -/
structure ReconcileRepoEntry where
  url : String
  ref : Option String
  skills : List String
  lastFetched : String
  deriving DecidableEq, Repr

/-- Embedding of the `ReconcileLock` interface. -/
structure ReconcileLock where
  version : Nat
  skills : String → Option ReconcileLockEntry
  repos : Option (String → Option ReconcileRepoEntry)

/-- Embedding of the `ReconcileResult` interface. -/
structure ReconcileResult where
  added : List String
  removed : List String
  deriving DecidableEq, Repr

/-- Embedding of the skill objects produced by `discoverSkills`. -/
structure DiscoveredSkill where
  name : String
  description : String
  path : String
  deriving DecidableEq, Repr

/-- The subset of `reconcileRepoSkills`'s `options` argument that reaches the
lock (`agents` only drives filesystem effects, kept for shape fidelity). -/
structure ReconcileOptions where
  sourceUrl : String
  sourceType : String
  ref : Option String
  agents : List String
  deriving Repr

/-- Embedding of `lock.repos?.[repoPath]?.skills ?? []` (line 60). -/
def trackedOf (lock : ReconcileLock) (repoPath : String) : List String :=
  match lock.repos with
  | some rs =>
    match rs repoPath with
    | some e => e.skills
    | none => []
  | none => []

/-- The repo entry the lock holds under key `k`, `none` when the `repos` map
or the entry is absent. -/
def reposAt (lock : ReconcileLock) (k : String) : Option ReconcileRepoEntry :=
  match lock.repos with
  | some rs => rs k
  | none => none

/-- Embedding of step 3's `removed` list (line 68): tracked names absent from
the discovered-name set, in tracked order. -/
def removedList (tracked discoveredNames : List String) : List String :=
  tracked.filter (fun n => decide (n ∉ discoveredNames))

/-- Embedding of step 3's `added` list (line 69): discovered names absent from
the tracked set, in discovery order. -/
def addedList (tracked : List String) (discoveredSkills : List DiscoveredSkill) : List String :=
  (discoveredSkills.filter (fun s => decide (s.name ∉ tracked))).map DiscoveredSkill.name

/-- One iteration of the removed-skills loop (lines 72-101) restricted to its
lock mutations: delete the name from `lock.skills`, and filter it out of
`lock.repos[repoPath].skills` when that entry exists. -/
def removeSkillEntry (repoPath : String) (lock : ReconcileLock) (skillName : String) :
    ReconcileLock :=
  { lock with
    skills := fun n => if n = skillName then none else lock.skills n,
    repos :=
      match lock.repos with
      | none => none
      | some rs =>
        some (fun k =>
          if k = repoPath then
            (rs repoPath).map
              (fun e => { e with skills := e.skills.filter (fun s => decide (s ≠ skillName)) })
          else rs k) }

/-- The `SkillLockEntry` object literal inserted for an added skill
(lines 114-124). -/
def mkRepoSkillEntry (repoPath : String) (options : ReconcileOptions) (now : String) :
    ReconcileLockEntry :=
  { source := repoPath
    sourceType := options.sourceType
    sourceUrl := options.sourceUrl
    skillPath := none
    skillFolderHash := ""
    installedAt := now
    updatedAt := now
    ref := options.ref
    installMethod := some InstallMethod.repoSymlink
    repoPath := some repoPath }

/-- One iteration of the added-skills loop (lines 105-132) restricted to its
lock mutations: insert the new entry into `lock.skills`, and append the name
to `lock.repos[repoPath].skills` when that entry exists and does not already
list it. -/
def addSkillEntry (repoPath : String) (options : ReconcileOptions) (now : String)
    (lock : ReconcileLock) (skillName : String) : ReconcileLock :=
  { lock with
    skills := fun n =>
      if n = skillName then some (mkRepoSkillEntry repoPath options now) else lock.skills n,
    repos :=
      match lock.repos with
      | none => none
      | some rs =>
        some (fun k =>
          if k = repoPath then
            (rs repoPath).map
              (fun e =>
                if skillName ∈ e.skills then e else { e with skills := e.skills ++ [skillName] })
          else rs k) }

/-- Embedding of `reconcileRepoSkills`: compute the diff of tracked names
against discovered names, apply the removals then the additions to the lock,
and return the two lists.  `now` stands for `new Date().toISOString()`. -/
def reconcileRepoSkills (repoPath : String) (lock : ReconcileLock)
    (discoveredSkills : List DiscoveredSkill) (options : ReconcileOptions) (now : String) :
    ReconcileLock × ReconcileResult :=
  let trackedSkills := trackedOf lock repoPath
  let removed := removedList trackedSkills (discoveredSkills.map DiscoveredSkill.name)
  let added := addedList trackedSkills discoveredSkills
  let lockAfterRemove := removed.foldl (removeSkillEntry repoPath) lock
  let lockAfterAdd := added.foldl (addSkillEntry repoPath options now) lockAfterRemove
  (lockAfterAdd, { added := added, removed := removed })

/-- Order-preserving deduplicating append, the closed form of the repo-entry
skill-list growth performed by the added-skills loop. -/
def appendIfAbsent (sk : List String) (n : String) : List String :=
  if n ∈ sk then sk else sk ++ [n]

/-- Folding `appendIfAbsent` over a list of names. -/
def addNames (sk : List String) (ns : List String) : List String :=
  ns.foldl appendIfAbsent sk

/-- Well-formedness of one URL component (a host, owner or repository name):
free of `@`, `:`, `/` and of regex line terminators. -/
def urlSafe (l : List Char) : Prop :=
  ∀ c ∈ l, c ≠ '@' ∧ c ≠ ':' ∧ c ≠ '/' ∧ isLineTerm c = false

instance (l : List Char) : Decidable (urlSafe l) := by
  unfold urlSafe
  infer_instance

/-! ## Concrete fixtures used to instantiate the theorems -/

/-- A lock whose repos map exists but holds no entry (for any identity). -/
def lockNoEntry : ReconcileLock :=
  { version := 4, skills := fun _ => none, repos := some (fun _ => none) }

/-- Options mirroring the defaults of the repository's reconcile tests. -/
def optsTest : ReconcileOptions :=
  { sourceUrl := "https://github.com/test/repo", sourceType := "github", ref := none,
    agents := ["claude-code"] }

/-- A discovery result with a single skill named `a`. -/
def discA : List DiscoveredSkill :=
  [{ name := "a", description := "da", path := "p/a" }]

/-- A repo entry tracking exactly the skill `b`. -/
def repoEntryB : ReconcileRepoEntry :=
  { url := "https://github.com/test/repo", ref := none, skills := ["b"], lastFetched := "t0" }

/-- A repo-symlink lock entry for the skill `b` under the repo `r`. -/
def entryB : ReconcileLockEntry :=
  { source := "r", sourceType := "github", sourceUrl := "https://github.com/test/repo",
    skillPath := none, skillFolderHash := "", installedAt := "t0", updatedAt := "t0",
    ref := none, installMethod := some InstallMethod.repoSymlink, repoPath := some "r" }

/-- A lock with a repo entry for `r` tracking `b`, and `b` installed. -/
def lockWithEntry : ReconcileLock :=
  { version := 4,
    skills := fun n => if n = "b" then some entryB else none,
    repos := some (fun k => if k = "r" then some repoEntryB else none) }

/-- A legacy standalone lock entry (no `installMethod`) named `a`. -/
def legacyEntryA : ReconcileLockEntry :=
  { source := "standalone", sourceType := "github", sourceUrl := "https://github.com/x/y",
    skillPath := none, skillFolderHash := "h", installedAt := "t0", updatedAt := "t0",
    ref := none, installMethod := none, repoPath := none }

/-- A lock where the legacy entry `a` is also listed in repo `r`'s tracked
skills (the drift scenario reconciliation must handle). -/
def lockLegacy : ReconcileLock :=
  { version := 4,
    skills := fun n => if n = "a" then some legacyEntryA else none,
    repos := some (fun k =>
      if k = "r" then
        some { url := "https://github.com/test/repo", ref := none, skills := ["a"],
               lastFetched := "t0" }
      else none) }

/-- A git environment with an existing checkout whose fetch fails with an
authentication message. -/
def envAuthFail : GitEnv :=
  { gitDirExists := true,
    fetchResult := .error ("Authentication failed".data),
    checkoutResult := .ok (),
    pullResult := .ok (),
    cloneResult := .ok () }

/-- A git environment with an existing checkout whose fetch fails with a
message matching none of the authentication patterns. -/
def envNetFail : GitEnv :=
  { gitDirExists := true,
    fetchResult := .error ("could not resolve host".data),
    checkoutResult := .ok (),
    pullResult := .ok (),
    cloneResult := .ok () }

/-- A git environment with no checkout and a failing clone. -/
def envCloneFail : GitEnv :=
  { gitDirExists := false,
    fetchResult := .ok (),
    checkoutResult := .ok (),
    pullResult := .ok (),
    cloneResult := .error ("could not resolve host".data) }

/-! ## Helper lemmas about the reconciliation folds -/

/-- Any lock observation preserved by each step of a fold is preserved by the
whole fold. -/
theorem foldl_lock_preserves {β : Type} (g : ReconcileLock → β)
    (f : ReconcileLock → String → ReconcileLock)
    (hf : ∀ l n, g (f l n) = g l) :
    ∀ (ns : List String) (lock : ReconcileLock), g (ns.foldl f lock) = g lock := by
  intro ns
  induction ns with
  | nil => intro lock; rfl
  | cons m ns ih => intro lock; rw [List.foldl_cons, ih, hf]

/-- Effect of the removal fold on the skills map. -/
theorem skills_foldl_remove (rp : String) :
    ∀ (ns : List String) (lock : ReconcileLock) (n : String),
      ((ns.foldl (removeSkillEntry rp) lock).skills) n
        = if n ∈ ns then none else lock.skills n := by
  intro ns
  induction ns with
  | nil => intro lock n; simp
  | cons m ns ih =>
    intro lock n
    rw [List.foldl_cons, ih]
    by_cases hmem : n ∈ ns
    · simp [hmem]
    · by_cases hnm : n = m
      · simp [hmem, hnm, removeSkillEntry]
      · simp [hmem, hnm, removeSkillEntry]

/-- Effect of the addition fold on the skills map: every name in the list maps
to the freshly built entry (the inserted object does not depend on the skill
name), other names are untouched. -/
theorem skills_foldl_add (rp : String) (opts : ReconcileOptions) (now : String) :
    ∀ (ns : List String) (lock : ReconcileLock) (n : String),
      ((ns.foldl (addSkillEntry rp opts now) lock).skills) n
        = if n ∈ ns then some (mkRepoSkillEntry rp opts now) else lock.skills n := by
  intro ns
  induction ns with
  | nil => intro lock n; simp
  | cons m ns ih =>
    intro lock n
    rw [List.foldl_cons, ih]
    by_cases hmem : n ∈ ns
    · simp [hmem]
    · by_cases hnm : n = m
      · simp [hmem, hnm, addSkillEntry]
      · simp [hmem, hnm, addSkillEntry]

/-- A removal step does not change the lock's version. -/
theorem version_removeSkillEntry (rp : String) (lock : ReconcileLock) (n : String) :
    (removeSkillEntry rp lock n).version = lock.version := rfl

/-- An addition step does not change the lock's version. -/
theorem version_addSkillEntry (rp : String) (opts : ReconcileOptions) (now : String)
    (lock : ReconcileLock) (n : String) :
    (addSkillEntry rp opts now lock n).version = lock.version := rfl

/-- A removal step does not change repo entries under other identities. -/
theorem reposAt_removeSkillEntry_other (rp k : String) (hk : k ≠ rp)
    (lock : ReconcileLock) (n : String) :
    reposAt (removeSkillEntry rp lock n) k = reposAt lock k := by
  unfold reposAt removeSkillEntry
  cases lock.repos with
  | none => rfl
  | some rs => simp [hk]

/-- An addition step does not change repo entries under other identities. -/
theorem reposAt_addSkillEntry_other (rp : String) (opts : ReconcileOptions) (now : String)
    (k : String) (hk : k ≠ rp) (lock : ReconcileLock) (n : String) :
    reposAt (addSkillEntry rp opts now lock n) k = reposAt lock k := by
  unfold reposAt addSkillEntry
  cases lock.repos with
  | none => rfl
  | some rs => simp [hk]

/-- Effect of one removal step on this repo's entry. -/
theorem reposAt_removeSkillEntry_self (rp : String) (lock : ReconcileLock) (n : String) :
    reposAt (removeSkillEntry rp lock n) rp
      = (reposAt lock rp).map
          (fun e => { e with skills := e.skills.filter (fun s => decide (s ≠ n)) }) := by
  unfold reposAt removeSkillEntry
  cases lock.repos with
  | none => rfl
  | some rs => simp

/-- Effect of one addition step on this repo's entry. -/
theorem reposAt_addSkillEntry_self (rp : String) (opts : ReconcileOptions) (now : String)
    (lock : ReconcileLock) (n : String) :
    reposAt (addSkillEntry rp opts now lock n) rp
      = (reposAt lock rp).map
          (fun e => { e with skills := appendIfAbsent e.skills n }) := by
  unfold reposAt addSkillEntry
  cases lock.repos with
  | none => rfl
  | some rs =>
    simp only [Option.map]
    cases rs rp with
    | none => rfl
    | some e => simp [appendIfAbsent]; split <;> rfl

/-- Closed form of the removal fold on this repo's entry. -/
theorem reposAt_foldl_remove (rp : String) :
    ∀ (ns : List String) (lock : ReconcileLock),
      reposAt (ns.foldl (removeSkillEntry rp) lock) rp
        = (reposAt lock rp).map
            (fun e => { e with skills := e.skills.filter (fun s => decide (s ∉ ns)) }) := by
  intro ns
  induction ns with
  | nil =>
    intro lock
    cases h : reposAt lock rp <;> simp [h]
  | cons m ns ih =>
    intro lock
    rw [List.foldl_cons, ih, reposAt_removeSkillEntry_self, Option.map_map]
    cases reposAt lock rp with
    | none => rfl
    | some e =>
      simp only [Option.map_some', Function.comp, List.filter_filter, Option.some.injEq,
        ReconcileRepoEntry.mk.injEq, true_and, and_true]
      apply List.filter_congr
      intro a _
      by_cases h1 : a = m <;> by_cases h2 : a ∈ ns <;> simp [h1, h2]

/-- Closed form of the addition fold on this repo's entry. -/
theorem reposAt_foldl_add (rp : String) (opts : ReconcileOptions) (now : String) :
    ∀ (ns : List String) (lock : ReconcileLock),
      reposAt (ns.foldl (addSkillEntry rp opts now) lock) rp
        = (reposAt lock rp).map (fun e => { e with skills := addNames e.skills ns }) := by
  intro ns
  induction ns with
  | nil =>
    intro lock
    cases h : reposAt lock rp <;> simp [h, addNames]
  | cons m ns ih =>
    intro lock
    rw [List.foldl_cons, ih, reposAt_addSkillEntry_self, Option.map_map]
    cases reposAt lock rp with
    | none => rfl
    | some e => simp [Function.comp, addNames]

/-- Membership in `appendIfAbsent`. -/
theorem mem_appendIfAbsent (sk : List String) (m n : String) :
    n ∈ appendIfAbsent sk m ↔ n ∈ sk ∨ n = m := by
  unfold appendIfAbsent
  split
  · rename_i hm
    constructor
    · exact fun h => Or.inl h
    · rintro (h | rfl)
      · exact h
      · exact hm
  · simp

/-- Membership in `addNames`. -/
theorem mem_addNames :
    ∀ (ns sk : List String) (n : String), n ∈ addNames sk ns ↔ n ∈ sk ∨ n ∈ ns := by
  intro ns
  induction ns with
  | nil => intro sk n; simp [addNames]
  | cons m ns ih =>
    intro sk n
    have h1 : addNames sk (m :: ns) = addNames (appendIfAbsent sk m) ns := rfl
    rw [h1, ih, mem_appendIfAbsent, List.mem_cons]
    tauto

/-- Names already present are not duplicated by `addNames`. -/
theorem count_addNames_of_mem :
    ∀ (ns sk : List String) (n : String), n ∈ sk →
      (addNames sk ns).count n = sk.count n := by
  intro ns
  induction ns with
  | nil => intro sk n _; rfl
  | cons m ns ih =>
    intro sk n hn
    have h1 : addNames sk (m :: ns) = addNames (appendIfAbsent sk m) ns := rfl
    rw [h1, ih _ _ ((mem_appendIfAbsent sk m n).mpr (Or.inl hn))]
    unfold appendIfAbsent
    split
    · rfl
    · rename_i hm
      have hnm : n ≠ m := fun h => hm (h ▸ hn)
      simp [List.count_append, hnm]

/-- A name absent from the initial list and present in the appended names
occurs exactly once after `addNames`. -/
theorem count_addNames_of_not_mem :
    ∀ (ns sk : List String) (n : String), n ∉ sk → n ∈ ns →
      (addNames sk ns).count n = 1 := by
  intro ns
  induction ns with
  | nil => intro sk n _ h; cases h
  | cons m ns ih =>
    intro sk n hsk hns
    have h1 : addNames sk (m :: ns) = addNames (appendIfAbsent sk m) ns := rfl
    by_cases hnm : n = m
    · subst hnm
      have happ : appendIfAbsent sk n = sk ++ [n] := by
        unfold appendIfAbsent; rw [if_neg hsk]
      have hmem : n ∈ appendIfAbsent sk n := by
        rw [mem_appendIfAbsent]; exact Or.inr rfl
      rw [h1, count_addNames_of_mem ns _ _ hmem, happ]
      simp [List.count_append, List.count_eq_zero.mpr hsk]
    · have hns' : n ∈ ns := by
        rcases List.mem_cons.mp hns with h | h
        · exact absurd h hnm
        · exact h
      have hsk' : n ∉ appendIfAbsent sk m := by
        rw [mem_appendIfAbsent]
        rintro (h | h)
        · exact hsk h
        · exact hnm h
      rw [h1]
      exact ih _ _ hsk' hns'

/-- Membership in the removed list. -/
theorem mem_removedList (tracked dn : List String) (n : String) :
    n ∈ removedList tracked dn ↔ n ∈ tracked ∧ n ∉ dn := by
  unfold removedList
  simp

/-- Membership in the added list. -/
theorem mem_addedList (tracked : List String) (disc : List DiscoveredSkill) (n : String) :
    n ∈ addedList tracked disc ↔ ∃ s ∈ disc, s.name = n ∧ n ∉ tracked := by
  unfold addedList
  simp
  constructor
  · rintro ⟨s, ⟨hs, ht⟩, rfl⟩
    exact ⟨s, hs, rfl, ht⟩
  · rintro ⟨s, hs, rfl, ht⟩
    exact ⟨s, ⟨hs, ht⟩, rfl⟩

/-- Added names come from the discovered set. -/
theorem addedList_subset_names (tracked : List String) (disc : List DiscoveredSkill)
    (n : String) (h : n ∈ addedList tracked disc) : n ∈ disc.map DiscoveredSkill.name := by
  rcases (mem_addedList tracked disc n).mp h with ⟨s, hs, rfl, _⟩
  exact List.mem_map.mpr ⟨s, hs, rfl⟩

/-- Added names are not tracked, hence never also removed. -/
theorem addedList_disjoint_removedList (tracked dn : List String)
    (disc : List DiscoveredSkill) (n : String) (h : n ∈ addedList tracked disc) :
    n ∉ removedList tracked dn := by
  rcases (mem_addedList tracked disc n).mp h with ⟨_, _, rfl, ht⟩
  rw [mem_removedList]
  exact fun hc => ht hc.1

/-- The result component of `reconcileRepoSkills`, unfolded. -/
theorem reconcile_result_eq (rp : String) (lock : ReconcileLock)
    (disc : List DiscoveredSkill) (opts : ReconcileOptions) (now : String) :
    (reconcileRepoSkills rp lock disc opts now).2
      = { added := addedList (trackedOf lock rp) disc,
          removed := removedList (trackedOf lock rp) (disc.map DiscoveredSkill.name) } := rfl

/-- The lock component of `reconcileRepoSkills`, unfolded. -/
theorem reconcile_lock_eq (rp : String) (lock : ReconcileLock)
    (disc : List DiscoveredSkill) (opts : ReconcileOptions) (now : String) :
    (reconcileRepoSkills rp lock disc opts now).1
      = (addedList (trackedOf lock rp) disc).foldl (addSkillEntry rp opts now)
          ((removedList (trackedOf lock rp) (disc.map DiscoveredSkill.name)).foldl
            (removeSkillEntry rp) lock) := rfl

/-- The skills map after a reconcile call. -/
theorem skills_reconcile (rp : String) (lock : ReconcileLock)
    (disc : List DiscoveredSkill) (opts : ReconcileOptions) (now : String) (n : String) :
    ((reconcileRepoSkills rp lock disc opts now).1).skills n
      = if n ∈ addedList (trackedOf lock rp) disc then some (mkRepoSkillEntry rp opts now)
        else if n ∈ removedList (trackedOf lock rp) (disc.map DiscoveredSkill.name) then none
        else lock.skills n := by
  rw [reconcile_lock_eq, skills_foldl_add, skills_foldl_remove]

/-- The repo entry under the reconciled identity after a reconcile call. -/
theorem reposAt_reconcile (rp : String) (lock : ReconcileLock)
    (disc : List DiscoveredSkill) (opts : ReconcileOptions) (now : String) :
    reposAt ((reconcileRepoSkills rp lock disc opts now).1) rp
      = (reposAt lock rp).map
          (fun e =>
            { e with
              skills := addNames (e.skills.filter (fun s => decide (s ∉ removedList (trackedOf lock rp) (disc.map DiscoveredSkill.name)))) (addedList (trackedOf lock rp) disc) }) := by
  rw [reconcile_lock_eq, reposAt_foldl_add, reposAt_foldl_remove, Option.map_map]
  cases reposAt lock rp with
  | none => rfl
  | some e => simp [Function.comp]

/-- The tracked names are the optional repo entry's skills, defaulting to the
empty list. -/
theorem trackedOf_eq_reposAt (lock : ReconcileLock) (rp : String) :
    trackedOf lock rp = ((reposAt lock rp).map ReconcileRepoEntry.skills).getD [] := by
  unfold trackedOf reposAt
  cases lock.repos with
  | none => rfl
  | some rs => cases h2 : rs rp <;> simp [h2]

/-- When the lock holds a repo entry, the tracked names are its skills. -/
theorem trackedOf_eq_of_reposAt (lock : ReconcileLock) (rp : String) (e : ReconcileRepoEntry)
    (h : reposAt lock rp = some e) : trackedOf lock rp = e.skills := by
  rw [trackedOf_eq_reposAt, h]
  rfl

/-! ## Claim theorems: reconciliation -/

/-- Claim C2: `reconcileRepoSkills` returns `removed` = tracked names (empty when
the repo entry is absent) not among the discovered names, in tracked order,
and `added` = discovered names not among the tracked names, in discovery
order; the result depends on the lock only through the tracked-name list, so
it is independent of every stored hash (and of the options and timestamp). -/
theorem reconcile_returns_name_diff (rp : String) (lock lock' : ReconcileLock)
    (disc : List DiscoveredSkill) (opts opts' : ReconcileOptions) (now now' : String)
    (h : trackedOf lock' rp = trackedOf lock rp) :
    (reconcileRepoSkills rp lock disc opts now).2.removed
        = (trackedOf lock rp).filter (fun n => decide (n ∉ disc.map DiscoveredSkill.name))
    ∧ (reconcileRepoSkills rp lock disc opts now).2.added
        = (disc.filter (fun s => decide (s.name ∉ trackedOf lock rp))).map DiscoveredSkill.name
    ∧ (reconcileRepoSkills rp lock' disc opts' now').2
        = (reconcileRepoSkills rp lock disc opts now).2 := by
  refine ⟨rfl, rfl, ?_⟩
  rw [reconcile_result_eq, reconcile_result_eq, h]

/-- Witness for C2 at the test fixture: the lock tracks `b`, discovery finds
`a`. -/
theorem reconcile_returns_name_diff_witness :
    (reconcileRepoSkills "r" lockWithEntry discA optsTest "t").2.removed = ["b"]
    ∧ (reconcileRepoSkills "r" lockWithEntry discA optsTest "t").2.added = ["a"] := by
  have h := reconcile_returns_name_diff "r" lockWithEntry lockWithEntry discA optsTest optsTest
    "t" "t" rfl
  exact ⟨h.1.trans (by decide), h.2.1.trans (by decide)⟩

/-- Claim C10: frame property of one reconcile call: the lock version, repo entries
under other identities, and skill entries whose name is in neither returned
list are unchanged. -/
theorem reconcile_frame (rp : String) (lock : ReconcileLock) (disc : List DiscoveredSkill)
    (opts : ReconcileOptions) (now : String) :
    (reconcileRepoSkills rp lock disc opts now).1.version = lock.version
    ∧ (∀ k, k ≠ rp →
        reposAt ((reconcileRepoSkills rp lock disc opts now).1) k = reposAt lock k)
    ∧ (∀ n, n ∉ (reconcileRepoSkills rp lock disc opts now).2.added →
        n ∉ (reconcileRepoSkills rp lock disc opts now).2.removed →
        ((reconcileRepoSkills rp lock disc opts now).1).skills n = lock.skills n) := by
  refine ⟨?_, ?_, ?_⟩
  · rw [reconcile_lock_eq]
    rw [foldl_lock_preserves (fun l => l.version) (addSkillEntry rp opts now) (fun l n => rfl)]
    rw [foldl_lock_preserves (fun l => l.version) (removeSkillEntry rp) (fun l n => rfl)]
  · intro k hk
    rw [reconcile_lock_eq]
    rw [foldl_lock_preserves (fun l => reposAt l k) (addSkillEntry rp opts now)
      (fun l n => reposAt_addSkillEntry_other rp opts now k hk l n)]
    rw [foldl_lock_preserves (fun l => reposAt l k) (removeSkillEntry rp)
      (fun l n => reposAt_removeSkillEntry_other rp k hk l n)]
  · intro n ha hr
    have ha' : n ∉ addedList (trackedOf lock rp) disc := ha
    have hr' : n ∉ removedList (trackedOf lock rp) (disc.map DiscoveredSkill.name) := hr
    rw [skills_reconcile, if_neg ha', if_neg hr']

/-- Witness for C10: a reconcile that removes `b` and adds `a` leaves the
version, an unrelated repo key and an unrelated skill name untouched. -/
theorem reconcile_frame_witness :
    (reconcileRepoSkills "r" lockWithEntry discA optsTest "t").1.version = 4
    ∧ reposAt ((reconcileRepoSkills "r" lockWithEntry discA optsTest "t").1) "other" = none
    ∧ ((reconcileRepoSkills "r" lockWithEntry discA optsTest "t").1).skills "z" = none := by
  have h := reconcile_frame "r" lockWithEntry discA optsTest "t"
  refine ⟨h.1.trans (by decide), ?_, ?_⟩
  · rw [h.2.1 "other" (by decide)]; decide
  · rw [h.2.2 "z" (by decide) (by decide)]; decide

/-- Counterexample to C4 as stated: a lock entry without `installMethod`
whose name is tracked by the repo but no longer on disk is deleted by
`reconcileRepoSkills` (the source never inspects `installMethod`). -/
theorem legacy_entry_deleted_cx :
    lockLegacy.skills "a" = some legacyEntryA
    ∧ legacyEntryA.installMethod = none
    ∧ (reconcileRepoSkills "r" lockLegacy [] optsTest "t").2.removed = ["a"]
    ∧ ((reconcileRepoSkills "r" lockLegacy [] optsTest "t").1).skills "a" = none := by
  exact ⟨by decide, rfl, by decide, by decide⟩

/-- Claim C4 amended: an entry without `installMethod` is left exactly as it was
provided its name is in neither the returned `removed` nor the returned
`added` list; when its name lands in one of those lists it is deleted or
overwritten like any other entry. -/
theorem legacy_entries_untouched_outside_diff (rp : String) (lock : ReconcileLock)
    (disc : List DiscoveredSkill) (opts : ReconcileOptions) (now : String)
    (n : String) (en : ReconcileLockEntry)
    (hen : lock.skills n = some en) (hleg : en.installMethod = none)
    (ha : n ∉ (reconcileRepoSkills rp lock disc opts now).2.added)
    (hr : n ∉ (reconcileRepoSkills rp lock disc opts now).2.removed) :
    ((reconcileRepoSkills rp lock disc opts now).1).skills n = some en := by
  have ha' : n ∉ addedList (trackedOf lock rp) disc := ha
  have hr' : n ∉ removedList (trackedOf lock rp) (disc.map DiscoveredSkill.name) := hr
  rw [skills_reconcile, if_neg ha', if_neg hr', hen]

/-- Witness for amended C4: the legacy entry `a` is both tracked and
discovered, lands in neither list, and survives unchanged. -/
theorem legacy_entries_untouched_outside_diff_witness :
    lockLegacy.skills "a" = some legacyEntryA
    ∧ ((reconcileRepoSkills "r" lockLegacy discA optsTest "t").1).skills "a"
        = some legacyEntryA := by
  exact ⟨by decide,
    legacy_entries_untouched_outside_diff "r" lockLegacy discA optsTest "t" "a" legacyEntryA
      (by decide) rfl (by decide) (by decide)⟩

/-- Counterexample to C3 as stated: when the lock has no repo entry for the
identity, an added name is recorded in `lock.skills` but there is no
`lock.repos[repoIdentity].skills` list holding it once — the repos map is
left without any entry for the identity. -/
theorem added_name_not_in_repo_list_cx :
    (reconcileRepoSkills "r" lockNoEntry discA optsTest "t").2.added = ["a"]
    ∧ reposAt ((reconcileRepoSkills "r" lockNoEntry discA optsTest "t").1) "r" = none
    ∧ ¬ ∃ e, reposAt ((reconcileRepoSkills "r" lockNoEntry discA optsTest "t").1) "r" = some e
          ∧ e.skills.count "a" = 1 := by
  have h0 : reposAt ((reconcileRepoSkills "r" lockNoEntry discA optsTest "t").1) "r" = none := by
    decide
  refine ⟨by decide, h0, ?_⟩
  rintro ⟨e, he, -⟩
  rw [h0] at he
  cases he

/-- Claim C3 amended: after the call every removed name is gone from `lock.skills`
and from the repo entry's skill list, and every added name maps to a fresh
`repo-symlink` entry with `repoPath = repoIdentity` and an empty
`skillFolderHash`; provided the repo entry exists, the added name occurs
exactly once in its skill list. -/
theorem reconcile_applies_diff (rp : String) (lock : ReconcileLock)
    (disc : List DiscoveredSkill) (opts : ReconcileOptions) (now : String) :
    (∀ n, n ∈ (reconcileRepoSkills rp lock disc opts now).2.removed →
        ((reconcileRepoSkills rp lock disc opts now).1).skills n = none
        ∧ ∀ e, reposAt ((reconcileRepoSkills rp lock disc opts now).1) rp = some e →
            n ∉ e.skills)
    ∧ (∀ n, n ∈ (reconcileRepoSkills rp lock disc opts now).2.added →
        (∃ en, ((reconcileRepoSkills rp lock disc opts now).1).skills n = some en
            ∧ en.installMethod = some InstallMethod.repoSymlink
            ∧ en.repoPath = some rp
            ∧ en.skillFolderHash = "")
        ∧ ∀ e, reposAt ((reconcileRepoSkills rp lock disc opts now).1) rp = some e →
            e.skills.count n = 1) := by
  constructor
  · intro n hn
    have hnr : n ∈ removedList (trackedOf lock rp) (disc.map DiscoveredSkill.name) := hn
    have hna : n ∉ addedList (trackedOf lock rp) disc := fun hc =>
      addedList_disjoint_removedList (trackedOf lock rp) (disc.map DiscoveredSkill.name)
        disc n hc hnr
    constructor
    · rw [skills_reconcile, if_neg hna, if_pos hnr]
    · intro e he
      rw [reposAt_reconcile] at he
      cases h0 : reposAt lock rp with
      | none => rw [h0] at he; cases he
      | some e0 =>
        rw [h0] at he
        simp only [Option.map_some', Option.some.injEq] at he
        rw [← he]
        intro hc
        rcases (mem_addNames _ _ _).mp hc with h1 | h2
        · have h3 := (List.mem_filter.mp h1).2
          exact (of_decide_eq_true h3) hnr
        · exact hna h2
  · intro n hn
    have hna : n ∈ addedList (trackedOf lock rp) disc := hn
    have hnr : n ∉ removedList (trackedOf lock rp) (disc.map DiscoveredSkill.name) :=
      addedList_disjoint_removedList (trackedOf lock rp) (disc.map DiscoveredSkill.name)
        disc n hna
    have hnt : n ∉ trackedOf lock rp := by
      rcases (mem_addedList _ _ _).mp hna with ⟨s, _, rfl, ht⟩
      exact ht
    constructor
    · exact ⟨mkRepoSkillEntry rp opts now, by rw [skills_reconcile, if_pos hna], rfl, rfl, rfl⟩
    · intro e he
      rw [reposAt_reconcile] at he
      cases h0 : reposAt lock rp with
      | none => rw [h0] at he; cases he
      | some e0 =>
        rw [h0] at he
        simp only [Option.map_some', Option.some.injEq] at he
        rw [← he]
        apply count_addNames_of_not_mem
        · intro hc
          have h1 := (List.mem_filter.mp hc).1
          rw [← trackedOf_eq_of_reposAt lock rp e0 h0] at h1
          exact hnt h1
        · exact hna

/-- Witness for amended C3 at the rename fixture: `b` is removed and `a`
added, with the expected entry fields and a single occurrence in the repo
list. -/
theorem reconcile_applies_diff_witness :
    ((reconcileRepoSkills "r" lockWithEntry discA optsTest "t").1).skills "b" = none
    ∧ ((reconcileRepoSkills "r" lockWithEntry discA optsTest "t").1).skills "a"
        = some (mkRepoSkillEntry "r" optsTest "t")
    ∧ (∃ e, reposAt ((reconcileRepoSkills "r" lockWithEntry discA optsTest "t").1) "r" = some e
        ∧ e.skills.count "a" = 1 ∧ "b" ∉ e.skills) := by
  have h := reconcile_applies_diff "r" lockWithEntry discA optsTest "t"
  have hrem := h.1 "b" (by decide)
  have hadd := h.2 "a" (by decide)
  have hrepo : reposAt ((reconcileRepoSkills "r" lockWithEntry discA optsTest "t").1) "r"
      = some { url := "https://github.com/test/repo", ref := none, skills := ["a"],
               lastFetched := "t0" } := by decide
  refine ⟨hrem.1, by decide, ?_⟩
  exact ⟨_, hrepo, hadd.2 _ hrepo, hrem.2 _ hrepo⟩

/-- Counterexample to C1 as stated: with no repo entry for the identity, the
first call never records the added names, so the immediate second call
reports them as added again instead of returning empty lists. -/
theorem reconcile_not_idempotent_cx :
    (reconcileRepoSkills "r"
        ((reconcileRepoSkills "r" lockNoEntry discA optsTest "t").1) discA optsTest "t").2.added
      = ["a"]
    ∧ (["a"] : List String) ≠ [] := by
  exact ⟨by decide, by decide⟩

/-- Claim C1 amended: `reconcileRepoSkills` is idempotent provided the lock holds a
repo entry for the identity at the first call: the second call (with the
same discovery result and any options and timestamp) returns
`added = []` and `removed = []`. -/
theorem reconcile_idempotent_of_repo_entry (rp : String) (lock : ReconcileLock)
    (disc : List DiscoveredSkill) (opts opts' : ReconcileOptions) (now now' : String)
    (e : ReconcileRepoEntry) (he : reposAt lock rp = some e) :
    (reconcileRepoSkills rp ((reconcileRepoSkills rp lock disc opts now).1)
        disc opts' now').2
      = { added := [], removed := [] } := by
  have hte : trackedOf lock rp = e.skills := trackedOf_eq_of_reposAt lock rp e he
  have h1 : reposAt ((reconcileRepoSkills rp lock disc opts now).1) rp
      = some { e with
          skills := addNames (e.skills.filter (fun s => decide (s ∉ removedList (trackedOf lock rp) (disc.map DiscoveredSkill.name)))) (addedList (trackedOf lock rp) disc) } := by
    rw [reposAt_reconcile, he, Option.map_some']
  have htr : trackedOf ((reconcileRepoSkills rp lock disc opts now).1) rp
      = addNames
          (e.skills.filter (fun s =>
            decide (s ∉ removedList (trackedOf lock rp) (disc.map DiscoveredSkill.name))))
          (addedList (trackedOf lock rp) disc) :=
    trackedOf_eq_of_reposAt _ rp _ h1
  rw [reconcile_result_eq, htr]
  have hrem : removedList
      (addNames
        (e.skills.filter (fun s =>
          decide (s ∉ removedList (trackedOf lock rp) (disc.map DiscoveredSkill.name))))
        (addedList (trackedOf lock rp) disc))
      (disc.map DiscoveredSkill.name) = [] := by
    rw [List.eq_nil_iff_forall_not_mem]
    intro a hmem
    rw [mem_removedList] at hmem
    obtain ⟨ha, hdn⟩ := hmem
    apply hdn
    rcases (mem_addNames _ _ _).mp ha with h2 | h2
    · have h3 : a ∈ e.skills := (List.mem_filter.mp h2).1
      have h4 : a ∉ removedList (trackedOf lock rp) (disc.map DiscoveredSkill.name) :=
        of_decide_eq_true (List.mem_filter.mp h2).2
      by_contra hdn2
      exact h4 ((mem_removedList _ _ _).mpr ⟨hte ▸ h3, hdn2⟩)
    · exact addedList_subset_names _ _ _ h2
  have hadd : addedList
      (addNames
        (e.skills.filter (fun s =>
          decide (s ∉ removedList (trackedOf lock rp) (disc.map DiscoveredSkill.name))))
        (addedList (trackedOf lock rp) disc))
      disc = [] := by
    rw [List.eq_nil_iff_forall_not_mem]
    intro n hmem
    rw [mem_addedList] at hmem
    obtain ⟨s, hs, rfl, ht⟩ := hmem
    apply ht
    rw [mem_addNames]
    by_cases hm : s.name ∈ e.skills
    · left
      rw [List.mem_filter]
      refine ⟨hm, decide_eq_true ?_⟩
      rw [mem_removedList]
      rintro ⟨-, hdn⟩
      exact hdn (List.mem_map.mpr ⟨s, hs, rfl⟩)
    · right
      rw [mem_addedList]
      exact ⟨s, hs, rfl, hte ▸ hm⟩
  rw [hrem, hadd]

/-- Witness for amended C1: with the repo entry present, reconciling twice in
a row yields empty lists on the second call. -/
theorem reconcile_idempotent_of_repo_entry_witness :
    reposAt lockWithEntry "r" = some repoEntryB
    ∧ (reconcileRepoSkills "r"
          ((reconcileRepoSkills "r" lockWithEntry discA optsTest "t").1)
          discA optsTest "t").2
        = { added := [], removed := [] } := by
  exact ⟨by decide,
    reconcile_idempotent_of_repo_entry "r" lockWithEntry discA optsTest optsTest "t" "t"
      repoEntryB (by decide)⟩

/-! ## Claim theorems: git checkout manager -/

/-- Counterexample to C5 as stated: with an existing checkout, a fetch
failure whose message matches the authentication patterns is not swallowed —
`ensureRepoCheckout` throws a `GitCloneError` with `isAuthError` set. -/
theorem ensure_update_auth_throws_cx :
    envAuthFail.gitDirExists = true
    ∧ (ensureRepoCheckout envAuthFail ("d".data) ("u".data) none).1
        = Except.error { message := ("Authentication failed for ".data ++ "u".data ++ ".".data),
                         url := "u".data, isTimeout := false, isAuthError := true } := by
  exact ⟨rfl, rfl⟩

/-- Claim C5 amended, by failure kind: with an existing checkout, when the
update sequence succeeds or fails with a message matching none of the
authentication patterns, `ensureRepoCheckout` returns the computed checkout
path (the failure is swallowed); when the failure message matches the
authentication patterns it rethrows a `GitCloneError` marked `isAuthError`;
in every case the existing checkout directory remains. -/
theorem ensure_existing_swallow_or_auth (env : GitEnv) (reposDir url : List Char)
    (ref : Option (List Char)) (h : env.gitDirExists = true) :
    (updateError env ref = none →
        ensureRepoCheckout env reposDir url ref
          = (Except.ok (getRepoCheckoutPath reposDir url ref), true))
    ∧ (∀ m, updateError env ref = some m → isAuthErrorMsg m = false →
        ensureRepoCheckout env reposDir url ref
          = (Except.ok (getRepoCheckoutPath reposDir url ref), true))
    ∧ (∀ m, updateError env ref = some m → isAuthErrorMsg m = true →
        ensureRepoCheckout env reposDir url ref
          = (Except.error { message := ("Authentication failed for ".data ++ url ++ ".".data),
                            url := url, isTimeout := false, isAuthError := true }, true)) := by
  have hbody : ensureRepoCheckout env reposDir url ref
      = match updateError env ref with
        | none => (.ok (getRepoCheckoutPath reposDir url ref), true)
        | some m =>
          if isAuthErrorMsg m then
            (.error { message := ("Authentication failed for ".data ++ url ++ ".".data),
                      url := url, isTimeout := false, isAuthError := true }, true)
          else (.ok (getRepoCheckoutPath reposDir url ref), true) := by
    unfold ensureRepoCheckout
    rw [h]
    rfl
  refine ⟨?_, ?_, ?_⟩
  · intro hu
    rw [hu] at hbody
    exact hbody
  · intro m hu ham
    rw [hu] at hbody
    have hbody2 : ensureRepoCheckout env reposDir url ref
        = (if isAuthErrorMsg m then
             (Except.error { message := ("Authentication failed for ".data ++ url ++ ".".data),
                             url := url, isTimeout := false, isAuthError := true }, true)
           else (Except.ok (getRepoCheckoutPath reposDir url ref), true)) := hbody
    rw [hbody2, if_neg (by simp [ham])]
  · intro m hu ham
    rw [hu] at hbody
    have hbody2 : ensureRepoCheckout env reposDir url ref
        = (if isAuthErrorMsg m then
             (Except.error { message := ("Authentication failed for ".data ++ url ++ ".".data),
                             url := url, isTimeout := false, isAuthError := true }, true)
           else (Except.ok (getRepoCheckoutPath reposDir url ref), true)) := hbody
    rw [hbody2, if_pos ham]

/-- Witness for amended C5: a resolve-host fetch failure is swallowed with
the checkout path returned, while an authentication failure is rethrown with
`isAuthError`; the directory remains in both runs. -/
theorem ensure_existing_swallow_or_auth_witness :
    ensureRepoCheckout envNetFail ("d".data) ("u".data) none
      = (Except.ok (getRepoCheckoutPath ("d".data) ("u".data) none), true)
    ∧ ensureRepoCheckout envAuthFail ("d".data) ("u".data) none
      = (Except.error { message := ("Authentication failed for ".data ++ "u".data ++ ".".data),
                        url := "u".data, isTimeout := false, isAuthError := true }, true) := by
  have h1 := ensure_existing_swallow_or_auth envNetFail ("d".data) ("u".data) none rfl
  have h2 := ensure_existing_swallow_or_auth envAuthFail ("d".data) ("u".data) none rfl
  exact ⟨h1.2.1 ("could not resolve host".data) rfl (by decide),
    h2.2.2 ("Authentication failed".data) rfl (by decide)⟩

/-- Claim C6: when no checkout exists and the clone fails, both `ensureRepoCheckout`
and `cloneRepo` throw the classified error and the target directory is gone
afterwards. -/
theorem clone_failure_cleanup (env : GitEnv) (reposDir url : List Char)
    (ref : Option (List Char)) (m : List Char)
    (hdir : env.gitDirExists = false) (hclone : env.cloneResult = Except.error m) :
    (ensureRepoCheckout env reposDir url ref).1 = Except.error (classifyCloneError url m)
    ∧ (ensureRepoCheckout env reposDir url ref).2 = false
    ∧ ∀ tempDir : List Char,
        (cloneRepo (Except.error m) tempDir url).1 = Except.error (classifyCloneError url m)
        ∧ (cloneRepo (Except.error m) tempDir url).2 = false := by
  have hbody : ensureRepoCheckout env reposDir url ref
      = (.error (classifyCloneError url m), false) := by
    unfold ensureRepoCheckout
    rw [hdir, hclone]
    rfl
  rw [hbody]
  exact ⟨rfl, rfl, fun tempDir => ⟨rfl, rfl⟩⟩

/-- Witness for C6 at the clone-failure environment. -/
theorem clone_failure_cleanup_witness :
    envCloneFail.gitDirExists = false
    ∧ (ensureRepoCheckout envCloneFail ("d".data) ("u".data) none).1
        = Except.error (classifyCloneError ("u".data) ("could not resolve host".data))
    ∧ (ensureRepoCheckout envCloneFail ("d".data) ("u".data) none).2 = false := by
  have h := clone_failure_cleanup envCloneFail ("d".data) ("u".data) none
    ("could not resolve host".data) rfl rfl
  exact ⟨rfl, h.1, h.2.1⟩

/-- Claim C9: `getRepoHeadHash` is total: its whole body is inside a try/catch, so
it returns the trimmed revparse output for a git working tree and `none`
(the embedded `null`) whenever revparse throws — it never throws itself. -/
theorem getRepoHeadHash_total (res : Except (List Char) (List Char)) :
    (∀ s, res = Except.ok s → getRepoHeadHash res = some (trimChars s))
    ∧ (∀ m, res = Except.error m → getRepoHeadHash res = none) := by
  constructor
  · rintro s rfl; rfl
  · rintro m rfl; rfl

/-- Witness for C9: a hash with a trailing newline is trimmed, and a
not-a-repository failure yields the absent value. -/
theorem getRepoHeadHash_total_witness :
    getRepoHeadHash (Except.ok ("abc\n".data)) = some ("abc".data)
    ∧ getRepoHeadHash (Except.error ("not a git repository".data)) = none := by
  have h1 := getRepoHeadHash_total (Except.ok ("abc\n".data))
  have h2 := getRepoHeadHash_total (Except.error ("not a git repository".data))
  refine ⟨(h1.1 _ rfl).trans ?_, h2.2 _ rfl⟩
  decide

/-! ## Helper lemmas about the URL stripping passes -/

/-- `dropWhile` consumes a list all of whose elements satisfy the predicate. -/
theorem dropWhile_all_nil {α : Type} {p : α → Bool} :
    ∀ l : List α, (∀ c ∈ l, p c = true) → l.dropWhile p = [] := by
  intro l
  induction l with
  | nil => intro _; rfl
  | cons a l ih =>
    intro h
    rw [List.dropWhile_cons_of_pos (h a (List.mem_cons_self a l))]
    exact ih (fun c hc => h c (List.mem_cons_of_mem a hc))

/-- Applying `dropWhile` twice is the same as applying it once. -/
theorem dropWhile_dropWhile {α : Type} (p : α → Bool) (l : List α) :
    (l.dropWhile p).dropWhile p = l.dropWhile p := by
  rcases hdw : l.dropWhile p with _ | ⟨c, t⟩
  · rfl
  · have hhead := List.head?_dropWhile_not p l
    rw [hdw] at hhead
    simp only [List.head?_cons] at hhead
    rw [List.dropWhile_cons_of_neg]
    simp [hhead]

/-- A prefix containing no slash stays within the segment before a slash. -/
theorem pre_no_slash :
    ∀ (x a t : List Char), a <+: (x ++ '/' :: t) → '/' ∉ a → a <+: x := by
  intro x
  induction x with
  | nil =>
    intro a t hp hs
    cases a with
    | nil => exact List.nil_prefix
    | cons c a' =>
      rw [List.nil_append, List.cons_prefix_cons] at hp
      exact absurd (hp.1 ▸ List.mem_cons_self c a') hs
  | cons d x' ih =>
    intro a t hp hs
    cases a with
    | nil => exact List.nil_prefix
    | cons c a' =>
      rw [List.cons_append, List.cons_prefix_cons] at hp
      have h2 : a' <+: x' :=
        ih a' t hp.2 (fun hc => hs (List.mem_cons_of_mem c hc))
      exact List.cons_prefix_cons.mpr ⟨hp.1, h2⟩

/-- A suffix containing no slash stays within the segment after a slash. -/
theorem suf_no_slash :
    ∀ (x t a : List Char), a <:+ (x ++ '/' :: t) → '/' ∉ a → a <:+ t := by
  intro x
  induction x with
  | nil =>
    intro t a hp hs
    rw [List.nil_append] at hp
    rcases List.suffix_cons_iff.mp hp with h1 | h2
    · exact absurd (h1 ▸ List.mem_cons_self '/' t) hs
    · exact h2
  | cons d x' ih =>
    intro t a hp hs
    rw [List.cons_append] at hp
    rcases List.suffix_cons_iff.mp hp with h1 | h2
    · exfalso
      apply hs
      rw [h1]
      exact List.mem_cons_of_mem d (List.mem_append_right x' (List.mem_cons_self '/' t))
    · exact ih t a h2 hs

/-- No pattern that contains a colon but no slash is a prefix of
`h ++ '/' :: t` when the host `h` is colon-free. -/
theorem no_colon_slash_pre (pat h t : List Char) (hpat : ':' ∈ pat) (hps : '/' ∉ pat)
    (hcol : ':' ∉ h) : ¬ (pat <+: (h ++ '/' :: t)) := by
  intro hp
  exact hcol ((pre_no_slash h pat t hp hps).subset hpat)

/-- The ssh rewrite leaves any string without `@` unchanged. -/
theorem sshStrip_id (cs : List Char) (h : '@' ∉ cs) : sshStrip cs = cs := by
  unfold sshStrip
  split
  · rename_i rest
    exact absurd
      (List.mem_cons_of_mem _ (List.mem_cons_of_mem _ (List.mem_cons_of_mem _
        (List.mem_cons_self '@' rest)))) h
  · rfl

/-- The userinfo rewrite leaves any string without `@` unchanged. -/
theorem userStrip_id (cs : List Char) (h : '@' ∉ cs) : userStrip cs = cs := by
  have hd : cs.dropWhile (fun c => decide (c ≠ '@')) = [] := by
    apply dropWhile_all_nil
    intro c hc
    simp only [decide_eq_true_eq]
    intro hca
    exact h (hca ▸ hc)
  unfold userStrip
  rw [hd]

/-- The scheme rewrite leaves a string without a scheme marker unchanged. -/
theorem schemeStrip_id (cs : List Char)
    (h1 : ¬ ("https://".data <+: cs)) (h2 : ¬ ("http://".data <+: cs))
    (h3 : ¬ ("ssh://".data <+: cs)) (h4 : ¬ ("git://".data <+: cs)) :
    schemeStrip cs = cs := by
  unfold schemeStrip
  rw [if_neg (by simpa using h1), if_neg (by simpa using h2), if_neg (by simpa using h3),
    if_neg (by simpa using h4)]

/-- The scheme rewrite keeps `host ++ '/' :: tail` intact when the host is
colon-free. -/
theorem schemeStrip_id_of_host (h t : List Char) (hcol : ':' ∉ h) :
    schemeStrip (h ++ '/' :: t) = h ++ '/' :: t := by
  apply schemeStrip_id
  · rintro ⟨u, hu⟩
    exact no_colon_slash_pre ("https:".data) h t (by decide) (by decide) hcol
      ⟨"//".data ++ u, hu⟩
  · rintro ⟨u, hu⟩
    exact no_colon_slash_pre ("http:".data) h t (by decide) (by decide) hcol
      ⟨"//".data ++ u, hu⟩
  · rintro ⟨u, hu⟩
    exact no_colon_slash_pre ("ssh:".data) h t (by decide) (by decide) hcol
      ⟨"//".data ++ u, hu⟩
  · rintro ⟨u, hu⟩
    exact no_colon_slash_pre ("git:".data) h t (by decide) (by decide) hcol
      ⟨"//".data ++ u, hu⟩

/-- The `.git` rewrite leaves a string without that suffix unchanged. -/
theorem dotGitStrip_id (cs : List Char) (h : ¬ (".git".data <:+ cs)) :
    dotGitStrip cs = cs := by
  unfold dotGitStrip
  rw [if_neg (by simpa using h)]

/-- The `.git` rewrite removes exactly a trailing `.git`. -/
theorem dotGitStrip_concat (x : List Char) : dotGitStrip (x ++ ".git".data) = x := by
  unfold dotGitStrip
  rw [if_pos (by simp)]
  rw [List.reverse_append]
  show ((x.reverse).reverse) = x
  exact List.reverse_reverse x

/-- The trailing-slash rewrite leaves a string not ending in a slash
unchanged. -/
theorem slashStrip_concat (x : List Char) (c : Char) (hc : c ≠ '/') :
    slashStrip (x ++ [c]) = x ++ [c] := by
  unfold slashStrip
  rw [List.reverse_append]
  show ((c :: x.reverse).dropWhile (fun d => decide (d = '/'))).reverse = x ++ [c]
  rw [List.dropWhile_cons_of_neg (by simpa using hc)]
  rw [List.reverse_cons, List.reverse_reverse]

/-- The trailing-slash rewrite is idempotent. -/
theorem slashStrip_idem (l : List Char) : slashStrip (slashStrip l) = slashStrip l := by
  unfold slashStrip
  rw [List.reverse_reverse, dropWhile_dropWhile]

/-- A component free of `@` contributes no `@` to a joined URL string. -/
theorem urlSafe_not_mem_at {l : List Char} (h : urlSafe l) : '@' ∉ l := by
  intro hm
  exact (h '@' hm).1 rfl

/-- A component free of `:` keeps the host segment colon-free. -/
theorem urlSafe_not_mem_colon {l : List Char} (h : urlSafe l) : ':' ∉ l := by
  intro hm
  exact (h ':' hm).2.1 rfl

/-- No `@` occurs in `h ++ '/' :: (o ++ '/' :: r)` built from safe parts. -/
theorem no_at_join (h o r : List Char) (hh : urlSafe h) (ho : urlSafe o) (hr : urlSafe r) :
    '@' ∉ (h ++ '/' :: (o ++ '/' :: r)) := by
  intro hm
  rcases List.mem_append.mp hm with h1 | h1
  · exact urlSafe_not_mem_at hh h1
  · rcases List.mem_cons.mp h1 with h2 | h2
    · exact absurd h2.symm (by decide)
    · rcases List.mem_append.mp h2 with h3 | h3
      · exact urlSafe_not_mem_at ho h3
      · rcases List.mem_cons.mp h3 with h4 | h4
        · exact absurd h4.symm (by decide)
        · exact urlSafe_not_mem_at hr h4

/-- Appending `.git` to the repository part adds no `@` either. -/
theorem no_at_join_git (h o r : List Char) (hh : urlSafe h) (ho : urlSafe o)
    (hr : urlSafe r) : '@' ∉ (h ++ '/' :: (o ++ '/' :: (r ++ ".git".data))) := by
  have hr' : '@' ∉ (r ++ ".git".data) := by
    intro hm
    rcases List.mem_append.mp hm with h1 | h1
    · exact urlSafe_not_mem_at hr h1
    · exact absurd h1 (by decide)
  intro hm
  rcases List.mem_append.mp hm with h1 | h1
  · exact urlSafe_not_mem_at hh h1
  · rcases List.mem_cons.mp h1 with h2 | h2
    · exact absurd h2.symm (by decide)
    · rcases List.mem_append.mp h2 with h3 | h3
      · exact urlSafe_not_mem_at ho h3
      · rcases List.mem_cons.mp h3 with h4 | h4
        · exact absurd h4.symm (by decide)
        · exact hr' h4

/-- Reassociation of the joined URL string around a trailing block. -/
theorem append_restructure (h o r d : List Char) :
    h ++ '/' :: (o ++ '/' :: (r ++ d)) = (h ++ '/' :: (o ++ '/' :: r)) ++ d := by
  simp [List.cons_append, List.append_assoc]

/-- The `.git` and trailing-slash rewrites map `h/o/r.git` to `h/o/r` for a
safe nonempty repository component. -/
theorem dgslash_git (h o r : List Char) (hr : urlSafe r) (hrne : r ≠ []) :
    slashStrip (dotGitStrip (h ++ '/' :: (o ++ '/' :: (r ++ ".git".data))))
      = h ++ '/' :: (o ++ '/' :: r) := by
  rw [append_restructure, dotGitStrip_concat]
  rcases List.eq_nil_or_concat r with rfl | ⟨rd, c, rfl⟩
  · exact absurd rfl hrne
  · rw [List.concat_eq_append, append_restructure h o rd [c]]
    apply slashStrip_concat
    have hc : c ∈ rd.concat c := by simp [List.concat_eq_append]
    exact (hr c hc).2.2.1

/-- The `.git` and trailing-slash rewrites leave `h/o/r` unchanged for a safe
nonempty repository component not ending in `.git`. -/
theorem dgslash_plain (h o r : List Char) (hr : urlSafe r) (hrne : r ≠ [])
    (hrg : ¬ (".git".data <:+ r)) :
    slashStrip (dotGitStrip (h ++ '/' :: (o ++ '/' :: r))) = h ++ '/' :: (o ++ '/' :: r) := by
  rw [dotGitStrip_id]
  · rcases List.eq_nil_or_concat r with rfl | ⟨rd, c, rfl⟩
    · exact absurd rfl hrne
    · rw [List.concat_eq_append, append_restructure h o rd [c]]
      apply slashStrip_concat
      have hc : c ∈ rd.concat c := by simp [List.concat_eq_append]
      exact (hr c hc).2.2.1
  · intro hsuf
    exact hrg (suf_no_slash o r ".git".data (suf_no_slash h _ _ hsuf (by decide)) (by decide))

/-- The ssh rewrite ignores strings with an `https://` head. -/
theorem sshStrip_https (t : List Char) :
    sshStrip ("https://".data ++ t) = "https://".data ++ t := rfl

/-- The ssh rewrite ignores strings with an `ssh://` head. -/
theorem sshStrip_sshProto (t : List Char) :
    sshStrip ("ssh://".data ++ t) = "ssh://".data ++ t := rfl

/-- The ssh rewrite ignores strings with a `git://` head (the fourth
character is a colon, not the `@` the ssh form requires). -/
theorem sshStrip_gitProto (t : List Char) :
    sshStrip ("git://".data ++ t) = "git://".data ++ t := rfl

/-- The scheme rewrite drops an `https://` head. -/
theorem schemeStrip_https (t : List Char) : schemeStrip ("https://".data ++ t) = t := by
  unfold schemeStrip
  rw [if_pos (by simp)]
  rw [show "https://".data = ['h','t','t','p','s',':','/','/'] from rfl]
  rfl

/-- The scheme rewrite drops an `ssh://` head. -/
theorem schemeStrip_sshProto (t : List Char) : schemeStrip ("ssh://".data ++ t) = t := by
  unfold schemeStrip
  rw [if_neg (show ¬ ("https://".data.isPrefixOf ("ssh://".data ++ t) = true) from
        fun hc => Bool.noConfusion (show false = true from hc)),
    if_neg (show ¬ ("http://".data.isPrefixOf ("ssh://".data ++ t) = true) from
        fun hc => Bool.noConfusion (show false = true from hc)),
    if_pos (by simp)]
  rw [show "ssh://".data = ['s','s','h',':','/','/'] from rfl]
  rfl

/-- The scheme rewrite drops a `git://` head. -/
theorem schemeStrip_gitProto (t : List Char) : schemeStrip ("git://".data ++ t) = t := by
  unfold schemeStrip
  rw [if_neg (show ¬ ("https://".data.isPrefixOf ("git://".data ++ t) = true) from
        fun hc => Bool.noConfusion (show false = true from hc)),
    if_neg (show ¬ ("http://".data.isPrefixOf ("git://".data ++ t) = true) from
        fun hc => Bool.noConfusion (show false = true from hc)),
    if_neg (show ¬ ("ssh://".data.isPrefixOf ("git://".data ++ t) = true) from
        fun hc => Bool.noConfusion (show false = true from hc)),
    if_pos (by simp)]
  rw [show "git://".data = ['g','i','t',':','/','/'] from rfl]
  rfl

/-- The userinfo rewrite drops a leading `git@`. -/
theorem userStrip_gitAt (t : List Char) : userStrip ("git@".data ++ t) = t := rfl

/-- The ssh rewrite fires on `git@host:tail` for a nonempty colon-free host
and a nonempty line-terminator-free tail, producing `host/tail`. -/
theorem sshStrip_firing (h tail : List Char) (hh : h ≠ [])
    (hcol : ∀ c ∈ h, c ≠ ':') (htail : tail ≠ [])
    (hlt : ∀ c ∈ tail, isLineTerm c = false) :
    sshStrip ("git@".data ++ (h ++ ':' :: tail)) = h ++ '/' :: tail := by
  have htw : (h ++ ':' :: tail).takeWhile (fun c => decide (c ≠ ':')) = h := by
    rw [List.takeWhile_append_of_pos (by intro a ha; simpa using hcol a ha)]
    rw [List.takeWhile_cons_of_neg (by simp)]
    exact List.append_nil h
  have hdw : (h ++ ':' :: tail).dropWhile (fun c => decide (c ≠ ':')) = ':' :: tail := by
    rw [List.dropWhile_append_of_pos (by intro a ha; simpa using hcol a ha)]
    rw [List.dropWhile_cons_of_neg (by simp)]
  show (let a := (h ++ ':' :: tail).takeWhile (fun c => decide (c ≠ ':'))
        match (h ++ ':' :: tail).dropWhile (fun c => decide (c ≠ ':')) with
        | ':' :: b =>
          if a = [] ∨ b = [] ∨ (∃ c ∈ b, isLineTerm c = true)
          then "git@".data ++ (h ++ ':' :: tail) else a ++ '/' :: b
        | _ => "git@".data ++ (h ++ ':' :: tail))
      = h ++ '/' :: tail
  rw [htw, hdw]
  show (if h = [] ∨ tail = [] ∨ (∃ c ∈ tail, isLineTerm c = true)
        then "git@".data ++ (h ++ ':' :: tail) else h ++ '/' :: tail)
      = h ++ '/' :: tail
  rw [if_neg]
  push_neg
  refine ⟨hh, htail, ?_⟩
  intro c hc
  simp [hlt c hc]

/-- The last three rewrites map `h/o/r.git` to `h/o/r` for safe components. -/
theorem tail_git (h o r : List Char) (hh : urlSafe h) (ho : urlSafe o) (hr : urlSafe r)
    (hrne : r ≠ []) :
    slashStrip (dotGitStrip (userStrip (h ++ '/' :: (o ++ '/' :: (r ++ ".git".data)))))
      = h ++ '/' :: (o ++ '/' :: r) := by
  rw [userStrip_id _ (no_at_join_git h o r hh ho hr)]
  exact dgslash_git h o r hr hrne

/-- The last three rewrites leave `h/o/r` unchanged for safe components with
no trailing `.git`. -/
theorem tail_plain (h o r : List Char) (hh : urlSafe h) (ho : urlSafe o) (hr : urlSafe r)
    (hrne : r ≠ []) (hrg : ¬ (".git".data <:+ r)) :
    slashStrip (dotGitStrip (userStrip (h ++ '/' :: (o ++ '/' :: r))))
      = h ++ '/' :: (o ++ '/' :: r) := by
  rw [userStrip_id _ (no_at_join h o r hh ho hr)]
  exact dgslash_plain h o r hr hrne hrg

/-! ## Claim theorems: URL normalization -/

/-- Counterexample to C7 as stated: `normalizeGitUrl` is not idempotent on
every string; on `x.git.git` one application strips one `.git` suffix and a
second application strips another. -/
theorem normalizeGitUrl_not_idempotent_cx :
    normalizeGitUrl ("x.git.git".data) = "x.git".data
    ∧ normalizeGitUrl (normalizeGitUrl ("x.git.git".data)) = "x".data
    ∧ normalizeGitUrl (normalizeGitUrl ("x.git.git".data))
        ≠ normalizeGitUrl ("x.git.git".data) := by
  exact ⟨by decide, by decide, by decide⟩

/-- Claim C7 amended: `normalizeGitUrl` is idempotent on every input whose
normalized form is free of `@`, carries no scheme marker, and does not end
in `.git` — in particular on every standard git URL; on degenerate inputs
such as `x.git.git` a second application strips further. -/
theorem normalizeGitUrl_idempotent_amended (x : List Char)
    (hat : '@' ∉ normalizeGitUrl x)
    (h1 : ¬ ("https://".data <+: normalizeGitUrl x))
    (h2 : ¬ ("http://".data <+: normalizeGitUrl x))
    (h3 : ¬ ("ssh://".data <+: normalizeGitUrl x))
    (h4 : ¬ ("git://".data <+: normalizeGitUrl x))
    (h5 : ¬ (".git".data <:+ normalizeGitUrl x)) :
    normalizeGitUrl (normalizeGitUrl x) = normalizeGitUrl x := by
  show slashStrip (dotGitStrip (userStrip (schemeStrip (sshStrip (normalizeGitUrl x)))))
      = normalizeGitUrl x
  rw [sshStrip_id _ hat, schemeStrip_id _ h1 h2 h3 h4, userStrip_id _ hat,
    dotGitStrip_id _ h5]
  show slashStrip (slashStrip (dotGitStrip (userStrip (schemeStrip (sshStrip x)))))
      = slashStrip (dotGitStrip (userStrip (schemeStrip (sshStrip x))))
  exact slashStrip_idem _

/-- Witness for amended C7 at a standard https URL. -/
theorem normalizeGitUrl_idempotent_amended_witness :
    ('@' ∉ normalizeGitUrl ("https://github.com/owner/repo.git".data))
    ∧ normalizeGitUrl (normalizeGitUrl ("https://github.com/owner/repo.git".data))
        = normalizeGitUrl ("https://github.com/owner/repo.git".data) :=
  ⟨by decide,
    normalizeGitUrl_idempotent_amended ("https://github.com/owner/repo.git".data)
      (by decide) (by decide) (by decide) (by decide) (by decide) (by decide)⟩

/-- Claim C8: for well-formed host, owner and repository components, the five URL
forms `https://h/o/r.git`, `https://h/o/r`, `git@h:o/r.git`,
`ssh://git@h/o/r` and `git://h/o/r.git` all normalize to the key `h/o/r`. -/
theorem normalizeGitUrl_collapses_standard_forms (h o r : List Char)
    (hh : h ≠ []) (ho : o ≠ []) (hr : r ≠ [])
    (hsh : urlSafe h) (hso : urlSafe o) (hsr : urlSafe r)
    (hrg : ¬ (".git".data <:+ r)) :
    normalizeGitUrl ("https://".data ++ (h ++ '/' :: (o ++ '/' :: (r ++ ".git".data))))
        = h ++ '/' :: (o ++ '/' :: r)
    ∧ normalizeGitUrl ("https://".data ++ (h ++ '/' :: (o ++ '/' :: r)))
        = h ++ '/' :: (o ++ '/' :: r)
    ∧ normalizeGitUrl ("git@".data ++ (h ++ ':' :: (o ++ '/' :: (r ++ ".git".data))))
        = h ++ '/' :: (o ++ '/' :: r)
    ∧ normalizeGitUrl ("ssh://".data ++ ("git@".data ++ (h ++ '/' :: (o ++ '/' :: r))))
        = h ++ '/' :: (o ++ '/' :: r)
    ∧ normalizeGitUrl ("git://".data ++ (h ++ '/' :: (o ++ '/' :: (r ++ ".git".data))))
        = h ++ '/' :: (o ++ '/' :: r) := by
  refine ⟨?_, ?_, ?_, ?_, ?_⟩
  · show slashStrip (dotGitStrip (userStrip (schemeStrip (sshStrip
        ("https://".data ++ (h ++ '/' :: (o ++ '/' :: (r ++ ".git".data))))))))
      = h ++ '/' :: (o ++ '/' :: r)
    rw [sshStrip_https, schemeStrip_https]
    exact tail_git h o r hsh hso hsr hr
  · show slashStrip (dotGitStrip (userStrip (schemeStrip (sshStrip
        ("https://".data ++ (h ++ '/' :: (o ++ '/' :: r)))))))
      = h ++ '/' :: (o ++ '/' :: r)
    rw [sshStrip_https, schemeStrip_https]
    exact tail_plain h o r hsh hso hsr hr hrg
  · show slashStrip (dotGitStrip (userStrip (schemeStrip (sshStrip
        ("git@".data ++ (h ++ ':' :: (o ++ '/' :: (r ++ ".git".data))))))))
      = h ++ '/' :: (o ++ '/' :: r)
    rw [sshStrip_firing h (o ++ '/' :: (r ++ ".git".data)) hh
      (fun c hc => (hsh c hc).2.1)
      (by cases o <;> simp)
      ?_]
    · rw [schemeStrip_id_of_host h _ (urlSafe_not_mem_colon hsh)]
      exact tail_git h o r hsh hso hsr hr
    · intro c hc
      rcases List.mem_append.mp hc with hmem | hmem
      · exact (hso c hmem).2.2.2
      · rcases List.mem_cons.mp hmem with rfl | hmem
        · decide
        · rcases List.mem_append.mp hmem with hmem2 | hmem2
          · exact (hsr c hmem2).2.2.2
          · have hlit : ∀ x ∈ ".git".data, isLineTerm x = false := by decide
            exact hlit c hmem2
  · show slashStrip (dotGitStrip (userStrip (schemeStrip (sshStrip
        ("ssh://".data ++ ("git@".data ++ (h ++ '/' :: (o ++ '/' :: r))))))))
      = h ++ '/' :: (o ++ '/' :: r)
    rw [sshStrip_sshProto, schemeStrip_sshProto, userStrip_gitAt]
    exact dgslash_plain h o r hsr hr hrg
  · show slashStrip (dotGitStrip (userStrip (schemeStrip (sshStrip
        ("git://".data ++ (h ++ '/' :: (o ++ '/' :: (r ++ ".git".data))))))))
      = h ++ '/' :: (o ++ '/' :: r)
    rw [sshStrip_gitProto, schemeStrip_gitProto]
    exact tail_git h o r hsh hso hsr hr

/-- Witness for C8 at `github.com`, `owner`, `repo`. -/
theorem normalizeGitUrl_collapses_standard_forms_witness :
    normalizeGitUrl ("https://github.com/owner/repo.git".data) = "github.com/owner/repo".data
    ∧ normalizeGitUrl ("git@github.com:owner/repo.git".data) = "github.com/owner/repo".data
    ∧ normalizeGitUrl ("ssh://git@github.com/owner/repo".data) = "github.com/owner/repo".data
    ∧ normalizeGitUrl ("git://github.com/owner/repo.git".data) = "github.com/owner/repo".data := by
  have hmain := normalizeGitUrl_collapses_standard_forms
    ("github.com".data) ("owner".data) ("repo".data)
    (by decide) (by decide) (by decide) (by decide) (by decide) (by decide) (by decide)
  refine ⟨?_, ?_, ?_, ?_⟩
  · have h1 := hmain.1
    rw [show ("https://".data ++ ("github.com".data ++ '/' :: ("owner".data ++ '/' :: ("repo".data ++ ".git".data)))) = "https://github.com/owner/repo.git".data from by decide] at h1
    rw [h1]
    decide
  · have h1 := hmain.2.2.1
    rw [show ("git@".data ++ ("github.com".data ++ ':' :: ("owner".data ++ '/' :: ("repo".data ++ ".git".data)))) = "git@github.com:owner/repo.git".data from by decide] at h1
    rw [h1]
    decide
  · have h1 := hmain.2.2.2.1
    rw [show ("ssh://".data ++ ("git@".data ++ ("github.com".data ++ '/' :: ("owner".data ++ '/' :: "repo".data)))) = "ssh://git@github.com/owner/repo".data from by decide] at h1
    rw [h1]
    decide
  · have h1 := hmain.2.2.2.2
    rw [show ("git://".data ++ ("github.com".data ++ '/' :: ("owner".data ++ '/' :: ("repo".data ++ ".git".data)))) = "git://github.com/owner/repo.git".data from by decide] at h1
    rw [h1]
    decide
